import Mathlib

/-!
Verification of the subwaybuilder-patcher pipeline against its specification.

The JavaScript source is embedded shallowly: JS numbers become exact
rationals (`ℚ`) or integers (`ℤ`), `Math.round` / `Math.floor` /
`Math.ceil` become `jround` / `Int.floor` / `Int.ceil`, fallible remote
fetches become `Except`-valued oracles, and worker functions become pure
Lean functions mirroring the loops of the source.
-/

namespace SubwayPatcher

/-- JS `Math.round` on a rational: rounds half toward positive infinity,
`Math.round(x) = Math.floor(x + 0.5)`. -/
def jround (q : ℚ) : ℤ := ⌊q + 1/2⌋

/-! ## Demand worker (src/unnamed/part_002, default export)

A place as seen by the demand worker: `placeID`, `totalPopulation`
(an integer, being a sum of `Math.floor` results upstream) and
`percentOfTotalJobs`. -/

structure Place where
  placeID : ℕ
  totalPopulation : ℤ
  percentOfTotalJobs : ℚ
deriving DecidableEq

structure Connection where
  residenceId : ℕ
  jobId : ℕ
  size : ℤ
  drivingDistance : ℤ
  drivingSeconds : ℤ
deriving DecidableEq

/-- `connectionSizeBasedOnJobsPercent = innerPlace.percentOfTotalJobs * outerPlace.totalPopulation`. -/
def candidateFlow (outer inner : Place) : ℚ :=
  inner.percentOfTotalJobs * (outer.totalPopulation : ℚ)

/-- `splits = Math.ceil(totalSize / 400)`. -/
def splitsOf (t : ℤ) : ℤ := ⌈(t : ℚ) / 400⌉

/-- First pass of the demand worker's inner loop over `allPlaces` for one
origin `outer`: builds `tempConnections` and `totalAssigned`.  The
distance between neighborhood centers (`calculateDistance` applied to
`centersOfNeighborhoods`) is abstracted as `dist`, since the haversine
value does not affect sizes.  Mirrors, per destination:

* skip when `connectionSizeBasedOnJobsPercent <= 1`;
* `totalSize = Math.round(...)`; `totalAssigned += totalSize`;
* push `splits = ceil(totalSize/400)` connections of size
  `Math.round(totalSize / splits)`. -/
def firstPass (dist : ℕ → ℕ → ℚ) (outer : Place) : List Place → List Connection × ℤ
  | [] => ([], 0)
  | inner :: rest =>
    let c := candidateFlow outer inner
    let r := firstPass dist outer rest
    if c ≤ 1 then r
    else
      let d := dist outer.placeID inner.placeID
      let t := jround c
      let splits := splitsOf t
      (List.replicate splits.toNat
        { residenceId := outer.placeID
          jobId := inner.placeID
          size := jround ((t : ℚ) / (splits : ℚ))
          drivingDistance := jround d
          drivingSeconds := jround (d * (12/100)) } ++ r.1,
       t + r.2)

/-- `tempConnections.forEach((conn, idx) => conn.size += perConnection + (idx < remainder ? 1 : 0))`. -/
def addCorrection (per rem : ℤ) : ℕ → List Connection → List Connection
  | _, [] => []
  | idx, c :: rest =>
    { c with size := c.size + (per + if (idx : ℤ) < rem then 1 else 0) } ::
      addCorrection per rem (idx + 1) rest

/-- One origin's connections, after the conservation-correction pass:
`lost = totalPopulation - totalAssigned`; when `lost > 5` and at least one
connection exists, distribute `Math.floor(lost / n)` to each plus `1` to
the first `lost % n`. -/
def perOriginConnections (dist : ℕ → ℕ → ℚ) (outer : Place) (allPlaces : List Place) :
    List Connection :=
  let tempConns := (firstPass dist outer allPlaces).1
  let totalAssigned := (firstPass dist outer allPlaces).2
  let lost := outer.totalPopulation - totalAssigned
  if 5 < lost ∧ 0 < tempConns.length then
    addCorrection (lost / tempConns.length) (lost % tempConns.length) 0 tempConns
  else tempConns

/-- The demand worker default export: concatenates each origin's
connections in order. -/
def demandWorker (dist : ℕ → ℕ → ℚ) (originPlaces allPlaces : List Place) :
    List Connection :=
  originPlaces.foldr (fun outer acc => perOriginConnections dist outer allPlaces ++ acc) []

/-- Sum of `size` over a connection list. -/
def sizesSum (l : List Connection) : ℤ := (l.map Connection.size).sum

/-- Zero distance function used for concrete evaluations (size fields do
not depend on it). -/
def dist0 : ℕ → ℕ → ℚ := fun _ _ => 0

/-! ### Arithmetic facts about `jround` and `splitsOf` -/

lemma jround_intCast (n : ℤ) : jround (n : ℚ) = n := by
  rw [jround, add_comm, Int.floor_add_int]
  norm_num

lemma jround_one_le {c : ℚ} (h : 1 < c) : 1 ≤ jround c := by
  rw [jround]
  refine Int.le_floor.mpr ?_
  push_cast
  linarith

lemma jround_le {q : ℚ} {b : ℤ} (h : q ≤ (b : ℚ)) : jround q ≤ b := by
  have hlt : ⌊q + 1/2⌋ < b + 1 := by
    refine Int.floor_lt.mpr ?_
    push_cast
    linarith
  rw [jround]
  omega

lemma splitsOf_pos {t : ℤ} (h : 1 ≤ t) : 1 ≤ splitsOf t := by
  rw [splitsOf]
  refine Int.ceil_pos.mpr ?_
  have : (0 : ℚ) < (t : ℚ) := by exact_mod_cast h
  positivity

lemma splitsOf_eq_one {t : ℤ} (h1 : 1 ≤ t) (h2 : t ≤ 400) : splitsOf t = 1 := by
  refine le_antisymm ?_ (splitsOf_pos h1)
  rw [splitsOf]
  refine Int.ceil_le.mpr ?_
  push_cast
  rw [div_le_one (by norm_num)]
  exact_mod_cast h2

lemma le_four_hundred_mul_splits {t : ℤ} : (t : ℚ) ≤ 400 * (splitsOf t : ℚ) := by
  have h := Int.le_ceil ((t : ℚ) / 400)
  rw [splitsOf]
  have h400 : (0 : ℚ) < 400 := by norm_num
  calc (t : ℚ) = (t : ℚ) / 400 * 400 := by field_simp
    _ ≤ (⌈(t : ℚ) / 400⌉ : ℚ) * 400 := by
        exact mul_le_mul_of_nonneg_right h (by norm_num)
    _ = 400 * (⌈(t : ℚ) / 400⌉ : ℚ) := by ring

lemma subconnection_size_le {t : ℤ} (h1 : 1 ≤ t) :
    jround ((t : ℚ) / (splitsOf t : ℚ)) ≤ 400 := by
  have hs : 1 ≤ splitsOf t := splitsOf_pos h1
  have hsq : (0 : ℚ) < (splitsOf t : ℚ) := by exact_mod_cast hs
  refine jround_le (b := 400) ?_
  rw [div_le_iff₀ hsq]
  have := le_four_hundred_mul_splits (t := t)
  push_cast
  linarith

/-! ### Structure of the first pass -/

lemma sizesSum_nil : sizesSum [] = 0 := rfl

lemma sizesSum_cons (c : Connection) (l : List Connection) :
    sizesSum (c :: l) = c.size + sizesSum l := by
  simp [sizesSum]

lemma sizesSum_append (l₁ l₂ : List Connection) :
    sizesSum (l₁ ++ l₂) = sizesSum l₁ + sizesSum l₂ := by
  simp [sizesSum]

/-- Every connection of the first pass has `size ≤ 400`. -/
lemma firstPass_size_le (dist : ℕ → ℕ → ℚ) (outer : Place) :
    ∀ (l : List Place), ∀ c ∈ (firstPass dist outer l).1, c.size ≤ 400 := by
  intro l
  induction l with
  | nil => intro c hc; simp [firstPass] at hc
  | cons inner rest ih =>
    intro c hc
    simp only [firstPass] at hc
    by_cases h1 : candidateFlow outer inner ≤ 1
    · rw [if_pos h1] at hc
      exact ih c hc
    · rw [if_neg h1] at hc
      rcases List.mem_append.mp hc with hmem | hmem
      · have hc' := List.eq_of_mem_replicate hmem
        subst hc'
        have ht : 1 ≤ jround (candidateFlow outer inner) :=
          jround_one_le (not_le.mp h1)
        exact subconnection_size_le ht
      · exact ih c hmem

/-- When every rounded candidate flow is at most 400 (a single split per
destination), the first pass's connection sizes sum to `totalAssigned`. -/
lemma firstPass_sum_eq (dist : ℕ → ℕ → ℚ) (outer : Place) :
    ∀ (l : List Place),
      (∀ inner ∈ l, jround (candidateFlow outer inner) ≤ 400) →
      sizesSum (firstPass dist outer l).1 = (firstPass dist outer l).2 := by
  intro l
  induction l with
  | nil => intro _; simp [firstPass, sizesSum_nil]
  | cons inner rest ih =>
    intro hsmall
    have hrest : ∀ p ∈ rest, jround (candidateFlow outer p) ≤ 400 := by
      intro p hp; exact hsmall p (List.mem_cons_of_mem _ hp)
    simp only [firstPass]
    by_cases h1 : candidateFlow outer inner ≤ 1
    · rw [if_pos h1]
      exact ih hrest
    · rw [if_neg h1]
      have ht1 : 1 ≤ jround (candidateFlow outer inner) :=
        jround_one_le (not_le.mp h1)
      have ht400 : jround (candidateFlow outer inner) ≤ 400 :=
        hsmall inner (List.mem_cons_self _ _)
      have hsplit : splitsOf (jround (candidateFlow outer inner)) = 1 :=
        splitsOf_eq_one ht1 ht400
      simp only [hsplit]
      rw [show ((1 : ℤ).toNat = 1) from rfl, List.replicate_one,
        List.singleton_append, sizesSum_cons, ih hrest]
      simp only [Int.cast_one, div_one, jround_intCast]

lemma firstPass_zero_pop (dist : ℕ → ℕ → ℚ) (outer : Place)
    (h : outer.totalPopulation = 0) :
    ∀ (l : List Place), firstPass dist outer l = ([], 0) := by
  intro l
  induction l with
  | nil => rfl
  | cons inner rest ih =>
    simp only [firstPass, ih]
    have hc : candidateFlow outer inner ≤ 1 := by
      rw [candidateFlow, h]
      norm_num
    rw [if_pos hc]

/-! ### The correction pass -/

lemma addCorrection_sum_of_le (per rem : ℤ) :
    ∀ (l : List Connection) (idx : ℕ), rem ≤ (idx : ℤ) →
      sizesSum (addCorrection per rem idx l) = sizesSum l + per * l.length := by
  intro l
  induction l with
  | nil => intro idx _; simp [addCorrection, sizesSum_nil]
  | cons c rest ih =>
    intro idx hle
    rw [addCorrection, sizesSum_cons, sizesSum_cons]
    rw [if_neg (by omega)]
    rw [ih (idx + 1) (by push_cast; omega)]
    simp only [List.length_cons]
    push_cast
    ring

lemma addCorrection_sum (per rem : ℤ) :
    ∀ (l : List Connection) (idx : ℕ), (idx : ℤ) ≤ rem →
      rem ≤ (idx : ℤ) + l.length →
      sizesSum (addCorrection per rem idx l) =
        sizesSum l + per * l.length + (rem - idx) := by
  intro l
  induction l with
  | nil =>
    intro idx h1 h2
    simp only [List.length_nil, Nat.cast_zero, add_zero] at h2
    have : rem = (idx : ℤ) := le_antisymm h2 h1
    simp [addCorrection, sizesSum_nil, this]
  | cons c rest ih =>
    intro idx h1 h2
    rw [addCorrection, sizesSum_cons, sizesSum_cons]
    simp only [List.length_cons] at h2 ⊢
    by_cases hidx : (idx : ℤ) < rem
    · rw [if_pos hidx]
      by_cases hnext : ((idx : ℤ) + 1) ≤ rem
      · rw [ih (idx + 1) (by push_cast; omega)
            (by push_cast at h2 ⊢; omega)]
        push_cast
        ring
      · have hrem : rem = (idx : ℤ) + 1 := by omega
        rw [addCorrection_sum_of_le per rem rest (idx + 1) (by push_cast; omega)]
        rw [hrem]
        push_cast
        ring
    · have hrem : rem = (idx : ℤ) := le_antisymm (by omega) h1
      rw [if_neg hidx]
      rw [addCorrection_sum_of_le per rem rest (idx + 1) (by push_cast; omega)]
      rw [hrem]
      push_cast
      ring

/-! ## Claims C1, C2, C8: the demand worker -/

/-- C1, counterexample: an origin with population 10 and a single
destination of job share 0.7 produces one connection of size 7; the
shortfall 3 is within the tolerance 5, no correction runs, and the sum of
sizes is 7, not 10 — the claimed exact equality fails. -/
theorem C1_counterexample :
    0 < (⟨0, 10, 0⟩ : Place).totalPopulation ∧
    perOriginConnections dist0 ⟨0, 10, 0⟩ [⟨1, 0, 7/10⟩] ≠ [] ∧
    sizesSum (perOriginConnections dist0 ⟨0, 10, 0⟩ [⟨1, 0, 7/10⟩]) ≠
      (⟨0, 10, 0⟩ : Place).totalPopulation :=
  of_decide_eq_true (by with_unfolding_all rfl)

/-- C1 (amended): for an origin with positive population and at least one
produced connection, the post-correction sum of `size` equals
`totalPopulation` exactly, provided the shortfall
`totalPopulation - totalAssigned` exceeds the tolerance 5 (so the
correction actually runs) and every rounded candidate flow is at most 400
(so no sub-connection splitting perturbs the accounting). -/
theorem C1_conservation_corrected (dist : ℕ → ℕ → ℚ) (outer : Place)
    (allPlaces : List Place)
    (hpos : 0 < outer.totalPopulation)
    (hconn : (firstPass dist outer allPlaces).1 ≠ [])
    (hlost : 5 < outer.totalPopulation - (firstPass dist outer allPlaces).2)
    (hsmall : ∀ inner ∈ allPlaces, jround (candidateFlow outer inner) ≤ 400) :
    sizesSum (perOriginConnections dist outer allPlaces) =
      outer.totalPopulation := by
  rw [perOriginConnections]
  have hlen : 0 < (firstPass dist outer allPlaces).1.length :=
    List.length_pos.mpr hconn
  have hlenZ : (0 : ℤ) < ((firstPass dist outer allPlaces).1.length : ℤ) := by
    exact_mod_cast hlen
  rw [if_pos ⟨hlost, hlen⟩]
  set lost := outer.totalPopulation - (firstPass dist outer allPlaces).2 with hlostdef
  set n : ℤ := ((firstPass dist outer allPlaces).1.length : ℤ) with hndef
  have hrem0 : 0 ≤ lost % n := Int.emod_nonneg lost (by omega)
  have hremn : lost % n < n := Int.emod_lt_of_pos lost hlenZ
  rw [addCorrection_sum (lost / n) (lost % n) (firstPass dist outer allPlaces).1 0
    (by simpa using hrem0) (by simpa using le_of_lt hremn)]
  rw [firstPass_sum_eq dist outer allPlaces hsmall]
  have hdm : n * (lost / n) + lost % n = lost := Int.ediv_add_emod lost n
  rw [hndef] at hdm ⊢
  push_cast at hdm ⊢
  linarith

/-- C1 witness. -/
theorem C1_witness :
    sizesSum (perOriginConnections dist0 ⟨0, 100, 0⟩ [⟨1, 0, 1/10⟩]) =
      (⟨0, 100, 0⟩ : Place).totalPopulation :=
  C1_conservation_corrected dist0 ⟨0, 100, 0⟩ [⟨1, 0, 1/10⟩]
    (of_decide_eq_true (by with_unfolding_all rfl))
    (of_decide_eq_true (by with_unfolding_all rfl))
    (of_decide_eq_true (by with_unfolding_all rfl))
    (of_decide_eq_true (by with_unfolding_all rfl))

/-- C2, counterexample: an origin with population 10000 and one
destination with job share 1/5000 yields one pre-correction connection of
size 2; the correction pass dumps the entire shortfall of 9998 onto it,
producing a connection of size 10000 > 400 — the claimed post-correction
cap fails. -/
theorem C2_counterexample :
    (demandWorker dist0 [⟨0, 10000, 0⟩] [⟨1, 0, 1/5000⟩]).map Connection.size
      = [10000] ∧
    ¬ ∀ c ∈ demandWorker dist0 [⟨0, 10000, 0⟩] [⟨1, 0, 1/5000⟩], c.size ≤ 400 :=
  of_decide_eq_true (by with_unfolding_all rfl)

/-- C2 (amended): every connection produced by the splitting step — that
is, before the conservation-correction pass — has size at most 400; the
correction pass can push sizes past 400. -/
theorem C2_split_cap_corrected (dist : ℕ → ℕ → ℚ) (outer : Place)
    (allPlaces : List Place) :
    ∀ c ∈ (firstPass dist outer allPlaces).1, c.size ≤ 400 :=
  firstPass_size_le dist outer allPlaces

/-- C2 witness. -/
theorem C2_witness :
    (⟨0, 1, 10, 0, 0⟩ : Connection) ∈
      (firstPass dist0 ⟨0, 100, 0⟩ [⟨1, 0, 1/10⟩]).1 ∧
    (⟨0, 1, 10, 0, 0⟩ : Connection).size ≤ 400 :=
  ⟨of_decide_eq_true (by with_unfolding_all rfl),
   C2_split_cap_corrected dist0 ⟨0, 100, 0⟩ [⟨1, 0, 1/10⟩] ⟨0, 1, 10, 0, 0⟩
     (of_decide_eq_true (by with_unfolding_all rfl))⟩

/-- C8: an origin neighborhood with zero population produces no outgoing
connections, for every destination list and every job-share assignment:
each candidate flow is `percent * 0 = 0 ≤ 1` and is skipped, so no
connection is built and the correction pass has nothing to correct. -/
theorem C8_zero_population_no_connections (dist : ℕ → ℕ → ℚ) (outer : Place)
    (allPlaces : List Place) (h : outer.totalPopulation = 0) :
    perOriginConnections dist outer allPlaces = [] := by
  rw [perOriginConnections, firstPass_zero_pop dist outer h allPlaces]
  simp

/-- C8 witness: the spec's example scenario, populations
`[1000, 0, 500]` with job shares `[0.6, 0.0, 0.4]`; the zero-population
neighborhood 1 produces no connections. -/
theorem C8_witness :
    perOriginConnections dist0 ⟨1, 0, 0⟩
      [⟨0, 1000, 6/10⟩, ⟨1, 0, 0⟩, ⟨2, 500, 4/10⟩] = [] :=
  C8_zero_population_no_connections dist0 ⟨1, 0, 0⟩
    [⟨0, 1000, 6/10⟩, ⟨1, 0, 0⟩, ⟨2, 500, 4/10⟩] rfl

/-! ## Claim C3: totals and percentages
(src/unnamed/part_003, `processPlaceConnections` lines 371-383) -/

/-- JS `place.totalPopulation / totalPopulation || 0`.  With the
pipeline's nonnegative per-neighborhood totals, the `|| 0` fallback fires
exactly when the city total is `0` (each numerator is then also `0` and
JS `0/0` is `NaN`, which `|| 0` maps to `0`), so it is embedded as a
conditional on the denominator. -/
def jsDivOrZero (p total : ℚ) : ℚ := if total = 0 then 0 else p / total

/-- The totals pass: `totalPopulation` accumulated over every
neighborhood metadata entry. -/
def cityTotal (pops : List ℚ) : ℚ := pops.sum

/-- The percentages pass: each neighborhood's
`percentOfTotalPopulation`. -/
def setPercentages (pops : List ℚ) : List ℚ :=
  pops.map (fun p => jsDivOrZero p (cityTotal pops))

lemma list_sum_map_div (l : List ℚ) (d : ℚ) :
    (l.map (fun p => p / d)).sum = l.sum / d := by
  induction l with
  | nil => simp
  | cons x xs ih => simp [ih, add_div]

/-- C3: each percentage is the neighborhood's total divided by the city
total (or 0 when the city total is zero), and whenever the city total is
nonzero the percentages sum to exactly 1 in exact rational arithmetic. -/
theorem C3_percentages (pops : List ℚ) :
    (∀ p ∈ pops, jsDivOrZero p (cityTotal pops) =
      if cityTotal pops = 0 then 0 else p / cityTotal pops) ∧
    (cityTotal pops ≠ 0 → (setPercentages pops).sum = 1) := by
  constructor
  · intro p _
    rfl
  · intro h
    rw [setPercentages]
    have hfun : (fun p => jsDivOrZero p (cityTotal pops)) =
        (fun p => p / cityTotal pops) := by
      funext p
      rw [jsDivOrZero, if_neg h]
    rw [hfun, list_sum_map_div]
    exact div_self h

/-- C3 witness: populations `[1000, 0, 500]`. -/
theorem C3_witness :
    cityTotal [1000, 0, 500] ≠ 0 ∧ (setPercentages [1000, 0, 500]).sum = 1 :=
  ⟨of_decide_eq_true (by with_unfolding_all rfl),
   (C3_percentages [1000, 0, 500]).2 (of_decide_eq_true (by with_unfolding_all rfl))⟩

/-! ## The resilient tile fetcher (src/scripts/download_data.js)

Tiles are 4-element arrays `[t0, t1, t2, t3]` (`[south, west, north,
east]` as produced by `generateTiles`); the fetchers only use the
generic arithmetic `(t2 - t0) * (t3 - t1)` and midpoint splitting. -/

structure RTile where
  t0 : ℚ
  t1 : ℚ
  t2 : ℚ
  t3 : ℚ
deriving DecidableEq

/-- `tileArea = (tile[2] - tile[0]) * (tile[3] - tile[1])`. -/
def tileArea (t : RTile) : ℚ := (t.t2 - t.t0) * (t.t3 - t.t1)

/-- The four quadrant subtiles (`midLon = (tile[0]+tile[2])/2`,
`midLat = (tile[1]+tile[3])/2` in the source's naming). -/
def subtiles (t : RTile) : RTile × RTile × RTile × RTile :=
  let m02 := (t.t0 + t.t2) / 2
  let m13 := (t.t1 + t.t3) / 2
  (⟨t.t0, t.t1, m02, m13⟩, ⟨m02, t.t1, t.t2, m13⟩,
   ⟨t.t0, m13, m02, t.t3⟩, ⟨m02, m13, t.t2, t.t3⟩)

/-- Result of a recursive tile fetch.  `features` mirrors the JS return
value; `baseFetches` (number of fetches issued by base-case invocations),
`maxDepthSeen` (largest recursion depth reached) and `reqTiles` (every
tile a query was issued for, in order) are ghost instrumentation. -/
structure FetchOut (F : Type) where
  features : List F
  baseFetches : ℕ
  maxDepthSeen : ℕ
  reqTiles : List RTile

/-- The base case of `fetchBuildingTileRecursive` (depth or area floor
reached): one query with retries, a failure caught and turned into
`[]`. -/
def baseFetch {F : Type} (src : ℕ → RTile → Except Unit (List F))
    (depth : ℕ) (tile : RTile) : FetchOut F :=
  match src depth tile with
  | .ok l => ⟨l, 1, depth, [tile]⟩
  | .error _ => ⟨[], 1, depth, [tile]⟩

/-- Recursion worker for `fetchBuildingTileRecursive`, structurally
recursive on `gas = maxDepth - depth` (so `gas = 0` is exactly the
source's `depth >= maxDepth` guard; recursive calls pass `depth + 1` and
`gas - 1`, preserving the correspondence).  The remote source is
abstracted as `src`, giving for each `(depth, tile)` either the decoded
`elements` list or a failure after retries. -/
def fetchRecAux {F : Type} (src : ℕ → RTile → Except Unit (List F)) :
    ℕ → ℕ → RTile → FetchOut F
  | depth, 0, tile => baseFetch src depth tile
  | depth, gas + 1, tile =>
    if tileArea tile < 1/100 then baseFetch src depth tile
    else
      match src depth tile with
      | .ok l =>
        if l.length = 0 ∧ 1/10 < tileArea tile then
          let q := subtiles tile
          let r1 := fetchRecAux src (depth + 1) gas q.1
          let r2 := fetchRecAux src (depth + 1) gas q.2.1
          let r3 := fetchRecAux src (depth + 1) gas q.2.2.1
          let r4 := fetchRecAux src (depth + 1) gas q.2.2.2
          ⟨r1.features ++ r2.features ++ r3.features ++ r4.features,
           r1.baseFetches + r2.baseFetches + r3.baseFetches + r4.baseFetches,
           max depth (max r1.maxDepthSeen
             (max r2.maxDepthSeen (max r3.maxDepthSeen r4.maxDepthSeen))),
           tile :: (r1.reqTiles ++ r2.reqTiles ++ r3.reqTiles ++ r4.reqTiles)⟩
        else ⟨l, 0, depth, [tile]⟩
      | .error _ =>
        if 1/10 < tileArea tile then
          let q := subtiles tile
          let r1 := fetchRecAux src (depth + 1) gas q.1
          let r2 := fetchRecAux src (depth + 1) gas q.2.1
          let r3 := fetchRecAux src (depth + 1) gas q.2.2.1
          let r4 := fetchRecAux src (depth + 1) gas q.2.2.2
          ⟨r1.features ++ r2.features ++ r3.features ++ r4.features,
           r1.baseFetches + r2.baseFetches + r3.baseFetches + r4.baseFetches,
           max depth (max r1.maxDepthSeen
             (max r2.maxDepthSeen (max r3.maxDepthSeen r4.maxDepthSeen))),
           tile :: (r1.reqTiles ++ r2.reqTiles ++ r3.reqTiles ++ r4.reqTiles)⟩
        else ⟨[], 0, depth, [tile]⟩

/-- `fetchBuildingTileRecursive(tile, depth = 0, maxDepth = 3)`. -/
def fetchBuildingTileRecursive {F : Type} (src : ℕ → RTile → Except Unit (List F))
    (tile : RTile) (depth : ℕ) (maxDepth : ℕ) : FetchOut F :=
  fetchRecAux src depth (maxDepth - depth) tile

lemma fetchRecAux_baseFetches_le {F : Type}
    (src : ℕ → RTile → Except Unit (List F)) :
    ∀ (gas depth : ℕ) (tile : RTile),
      (fetchRecAux src depth gas tile).baseFetches ≤ 4 ^ gas := by
  intro gas
  induction gas with
  | zero =>
    intro depth tile
    rw [fetchRecAux, baseFetch]
    cases src depth tile <;> simp
  | succ gas ih =>
    intro depth tile
    rw [fetchRecAux]
    have hpow : 0 < 4 ^ gas := Nat.pos_pow_of_pos gas (by norm_num)
    split
    · rw [baseFetch]
      cases src depth tile <;> · simp only; calc 1 ≤ 4 ^ gas := hpow
                                                 _ ≤ 4 ^ (gas + 1) := Nat.pow_le_pow_right (by norm_num) (by omega)
    · cases hsrc : src depth tile with
      | ok l =>
        simp only
        split
        · simp only
          have h1 := ih (depth + 1) (subtiles tile).1
          have h2 := ih (depth + 1) (subtiles tile).2.1
          have h3 := ih (depth + 1) (subtiles tile).2.2.1
          have h4 := ih (depth + 1) (subtiles tile).2.2.2
          have : (4 : ℕ) ^ (gas + 1) = 4 ^ gas + 4 ^ gas + 4 ^ gas + 4 ^ gas := by
            rw [pow_succ]; ring
          omega
        · simp only
          omega
      | error e =>
        simp only
        split
        · simp only
          have h1 := ih (depth + 1) (subtiles tile).1
          have h2 := ih (depth + 1) (subtiles tile).2.1
          have h3 := ih (depth + 1) (subtiles tile).2.2.1
          have h4 := ih (depth + 1) (subtiles tile).2.2.2
          have : (4 : ℕ) ^ (gas + 1) = 4 ^ gas + 4 ^ gas + 4 ^ gas + 4 ^ gas := by
            rw [pow_succ]; ring
          omega
        · simp only
          omega

lemma fetchRecAux_maxDepthSeen_le {F : Type}
    (src : ℕ → RTile → Except Unit (List F)) :
    ∀ (gas depth : ℕ) (tile : RTile),
      (fetchRecAux src depth gas tile).maxDepthSeen ≤ depth + gas := by
  intro gas
  induction gas with
  | zero =>
    intro depth tile
    rw [fetchRecAux, baseFetch]
    cases src depth tile <;> simp
  | succ gas ih =>
    intro depth tile
    rw [fetchRecAux]
    split
    · rw [baseFetch]
      cases src depth tile <;> · simp only; omega
    · cases hsrc : src depth tile with
      | ok l =>
        simp only
        split
        · simp only
          have h1 := ih (depth + 1) (subtiles tile).1
          have h2 := ih (depth + 1) (subtiles tile).2.1
          have h3 := ih (depth + 1) (subtiles tile).2.2.1
          have h4 := ih (depth + 1) (subtiles tile).2.2.2
          omega
        · simp only; omega
      | error e =>
        simp only
        split
        · simp only
          have h1 := ih (depth + 1) (subtiles tile).1
          have h2 := ih (depth + 1) (subtiles tile).2.1
          have h3 := ih (depth + 1) (subtiles tile).2.2.1
          have h4 := ih (depth + 1) (subtiles tile).2.2.2
          omega
        · simp only; omega

lemma fetchRecAux_zero_source {F : Type}
    (src : ℕ → RTile → Except Unit (List F))
    (hz : ∀ d t, src d t = Except.ok []) :
    ∀ (gas depth : ℕ) (tile : RTile),
      (fetchRecAux src depth gas tile).features = [] := by
  intro gas
  induction gas with
  | zero =>
    intro depth tile
    rw [fetchRecAux, baseFetch, hz]
  | succ gas ih =>
    intro depth tile
    rw [fetchRecAux]
    split
    · rw [baseFetch, hz]
    · rw [hz]
      simp only
      split
      · simp only
        rw [ih (depth + 1) (subtiles tile).1, ih (depth + 1) (subtiles tile).2.1,
          ih (depth + 1) (subtiles tile).2.2.1, ih (depth + 1) (subtiles tile).2.2.2]
        rfl
      · rfl

/-- C4: for every tile and every remote-source behaviour, the recursive
fetch (a total function here) reaches depth at most `maxDepth`, issues at
most `4 ^ maxDepth` base-case fetches per original tile, and returns the
empty feature list when the source returns zero elements at every
depth. -/
theorem C4_recursion_bounded {F : Type}
    (src : ℕ → RTile → Except Unit (List F)) (tile : RTile) (maxDepth : ℕ) :
    (fetchBuildingTileRecursive src tile 0 maxDepth).maxDepthSeen ≤ maxDepth ∧
    (fetchBuildingTileRecursive src tile 0 maxDepth).baseFetches ≤ 4 ^ maxDepth ∧
    ((∀ d t, src d t = Except.ok []) →
      (fetchBuildingTileRecursive src tile 0 maxDepth).features = []) := by
  refine ⟨?_, ?_, ?_⟩
  · have := fetchRecAux_maxDepthSeen_le src (maxDepth - 0) 0 tile
    rw [fetchBuildingTileRecursive]
    omega
  · have := fetchRecAux_baseFetches_le src (maxDepth - 0) 0 tile
    rw [fetchBuildingTileRecursive]
    simpa using this
  · intro hz
    rw [fetchBuildingTileRecursive]
    exact fetchRecAux_zero_source src hz (maxDepth - 0) 0 tile

/-- A remote source returning zero elements at every depth. -/
def zeroSrc : ℕ → RTile → Except Unit (List ℕ) := fun _ _ => Except.ok []

/-- C4 witness. -/
theorem C4_witness :
    (fetchBuildingTileRecursive zeroSrc ⟨0, 0, 1, 1⟩ 0 3).maxDepthSeen ≤ 3 ∧
    (fetchBuildingTileRecursive zeroSrc ⟨0, 0, 1, 1⟩ 0 3).baseFetches ≤ 4 ^ 3 ∧
    (fetchBuildingTileRecursive zeroSrc ⟨0, 0, 1, 1⟩ 0 3).features = [] :=
  ⟨(C4_recursion_bounded zeroSrc ⟨0, 0, 1, 1⟩ 3).1,
   (C4_recursion_bounded zeroSrc ⟨0, 0, 1, 1⟩ 3).2.1,
   (C4_recursion_bounded zeroSrc ⟨0, 0, 1, 1⟩ 3).2.2 (fun _ _ => rfl)⟩

/-- C7: a tile at minimum granularity (depth at the bound or area below
the split floor 0.01) whose fetch fails after retries contributes the
empty feature list; the error is caught, never propagated (the fetcher is
a total, list-valued function). -/
theorem C7_base_failure_empty {F : Type}
    (src : ℕ → RTile → Except Unit (List F)) (tile : RTile)
    (depth maxDepth : ℕ)
    (hbase : maxDepth ≤ depth ∨ tileArea tile < 1/100)
    (hfail : src depth tile = Except.error ()) :
    (fetchBuildingTileRecursive src tile depth maxDepth).features = [] := by
  rw [fetchBuildingTileRecursive]
  rcases hbase with hd | ha
  · rw [Nat.sub_eq_zero_of_le hd, fetchRecAux, baseFetch, hfail]
  · cases hgas : maxDepth - depth with
    | zero => rw [fetchRecAux, baseFetch, hfail]
    | succ gas =>
      rw [fetchRecAux, if_pos ha, baseFetch, hfail]

/-- A remote source failing at every depth. -/
def failSrc : ℕ → RTile → Except Unit (List ℕ) := fun _ _ => Except.error ()

/-- C7 witness: a tile already at `maxDepth` whose fetch fails. -/
theorem C7_witness :
    ((3 : ℕ) ≤ 3 ∨ tileArea ⟨0, 0, 1, 1⟩ < 1/100) ∧
    (fetchBuildingTileRecursive failSrc ⟨0, 0, 1, 1⟩ 3 3).features = [] :=
  ⟨Or.inl le_rfl,
   C7_base_failure_empty failSrc ⟨0, 0, 1, 1⟩ 3 3 (Or.inl le_rfl) rfl⟩

/-! ## Claim C9: `generateTiles` (src/scripts/download_data.js lines 12-29)

The two nested `while` loops advance `lat` (resp. `lon`) by
`min(cur + maxTileSize, bound)` until the bound is reached.  Each axis is
embedded as `intervalsAux`, structurally recursive on a fuel that
`intervals1D` instantiates with `⌈(hi - lo) / size⌉`, an upper bound on
the number of loop iterations. -/

def intervalsAux (size : ℚ) : ℕ → ℚ → ℚ → List (ℚ × ℚ)
  | 0, _, _ => []
  | fuel + 1, lo, hi =>
    if lo < hi then
      let next := min (lo + size) hi
      (lo, next) :: intervalsAux size fuel next hi
    else []

def intervals1D (size lo hi : ℚ) : List (ℚ × ℚ) :=
  intervalsAux size (⌈(hi - lo) / size⌉.toNat) lo hi

/-- `generateTiles(bbox = [south, west, north, east], maxTileSize)`:
tiles `[lat, lon, nextLat, nextLon]` in row-major loop order. -/
def generateTiles (bbox : RTile) (maxTileSize : ℚ) : List RTile :=
  (intervals1D maxTileSize bbox.t0 bbox.t2).flatMap fun la =>
    (intervals1D maxTileSize bbox.t1 bbox.t3).map fun lo =>
      ⟨la.1, lo.1, la.2, lo.2⟩

/-- Membership in a tile, boundaries included (a tile's fetch query covers
its closed bounding box). -/
def insideClosed (t : RTile) (x y : ℚ) : Prop :=
  t.t0 ≤ x ∧ x ≤ t.t2 ∧ t.t1 ≤ y ∧ y ≤ t.t3

/-- Membership in a tile's interior. -/
def insideOpen (t : RTile) (x y : ℚ) : Prop :=
  t.t0 < x ∧ x < t.t2 ∧ t.t1 < y ∧ y < t.t3

lemma intervals1D_fuel (size lo hi : ℚ) (hs : 0 < size) :
    hi - lo ≤ ((⌈(hi - lo) / size⌉.toNat : ℤ) : ℚ) * size := by
  rcases le_or_lt hi lo with h | h
  · have h1 : hi - lo ≤ 0 := by linarith
    have h2 : (0 : ℚ) ≤ ((⌈(hi - lo) / size⌉.toNat : ℤ) : ℚ) * size := by
      have hn : (0 : ℚ) ≤ ((⌈(hi - lo) / size⌉.toNat : ℤ) : ℚ) := by
        exact_mod_cast Int.natCast_nonneg _
      exact mul_nonneg hn (le_of_lt hs)
    linarith
  · have hpos : 0 < (hi - lo) / size := div_pos (by linarith) hs
    have hceil : 0 ≤ ⌈(hi - lo) / size⌉ := le_of_lt (Int.ceil_pos.mpr hpos)
    rw [Int.toNat_of_nonneg hceil]
    have hle := Int.le_ceil ((hi - lo) / size)
    calc hi - lo = (hi - lo) / size * size := by field_simp
      _ ≤ (⌈(hi - lo) / size⌉ : ℚ) * size :=
          mul_le_mul_of_nonneg_right hle (le_of_lt hs)

lemma intervalsAux_bounds (size : ℚ) (hs : 0 < size) :
    ∀ (fuel : ℕ) (lo hi : ℚ), ∀ ab ∈ intervalsAux size fuel lo hi,
      lo ≤ ab.1 ∧ ab.1 < ab.2 ∧ ab.2 ≤ hi ∧ ab.2 - ab.1 ≤ size := by
  intro fuel
  induction fuel with
  | zero => intro lo hi ab hab; simp [intervalsAux] at hab
  | succ fuel ih =>
    intro lo hi ab hab
    rw [intervalsAux] at hab
    by_cases hlh : lo < hi
    · rw [if_pos hlh] at hab
      have hnle : min (lo + size) hi ≤ lo + size := min_le_left _ _
      rcases List.mem_cons.mp hab with rfl | hab'
      · exact ⟨le_refl _, lt_min (by linarith) hlh, min_le_right _ _, by linarith⟩
      · have hlen : lo ≤ min (lo + size) hi := le_min (by linarith) (le_of_lt hlh)
        obtain ⟨h1, h2, h3, h4⟩ := ih (min (lo + size) hi) hi ab hab'
        exact ⟨le_trans hlen h1, h2, h3, h4⟩
    · rw [if_neg hlh] at hab
      simp at hab

lemma intervalsAux_cover (size : ℚ) (hs : 0 < size) :
    ∀ (fuel : ℕ) (lo hi : ℚ), hi - lo ≤ (fuel : ℚ) * size →
      ∀ x, (∃ ab ∈ intervalsAux size fuel lo hi, ab.1 ≤ x ∧ x ≤ ab.2) ↔
        (lo ≤ x ∧ x ≤ hi ∧ lo < hi) := by
  intro fuel
  induction fuel with
  | zero =>
    intro lo hi hf x
    push_cast at hf
    constructor
    · rintro ⟨ab, hab, -⟩
      simp [intervalsAux] at hab
    · rintro ⟨h1, h2, h3⟩
      linarith
  | succ fuel ih =>
    intro lo hi hf x
    rw [intervalsAux]
    by_cases hlh : lo < hi
    · rw [if_pos hlh]
      have hn1 : lo < min (lo + size) hi := lt_min (by linarith) hlh
      have hn2 : min (lo + size) hi ≤ hi := min_le_right _ _
      have hf' : hi - min (lo + size) hi ≤ (fuel : ℚ) * size := by
        push_cast at hf
        rcases le_total (lo + size) hi with hm | hm
        · rw [min_eq_left hm]
          linarith
        · rw [min_eq_right hm]
          have : (0 : ℚ) ≤ (fuel : ℚ) * size := by positivity
          linarith
      constructor
      · rintro ⟨ab, hab, hx1, hx2⟩
        rcases List.mem_cons.mp hab with rfl | hab'
        · exact ⟨hx1, le_trans hx2 hn2, hlh⟩
        · obtain ⟨g1, g2, -⟩ := (ih (min (lo + size) hi) hi hf' x).mp ⟨ab, hab', hx1, hx2⟩
          exact ⟨le_trans (le_of_lt hn1) g1, g2, hlh⟩
      · rintro ⟨h1, h2, -⟩
        rcases le_or_lt x (min (lo + size) hi) with hxn | hxn
        · exact ⟨(lo, min (lo + size) hi), List.mem_cons_self _ _, h1, hxn⟩
        · have hnh : min (lo + size) hi < hi := lt_of_lt_of_le hxn h2
          obtain ⟨ab, hab, hh⟩ :=
            (ih (min (lo + size) hi) hi hf' x).mpr ⟨le_of_lt hxn, h2, hnh⟩
          exact ⟨ab, List.mem_cons_of_mem _ hab, hh⟩
    · rw [if_neg hlh]
      constructor
      · rintro ⟨ab, hab, -⟩
        simp at hab
      · rintro ⟨-, -, h3⟩
        exact absurd h3 hlh

lemma intervals1D_cover (size lo hi : ℚ) (hs : 0 < size) (hlh : lo < hi) (x : ℚ) :
    (∃ ab ∈ intervals1D size lo hi, ab.1 ≤ x ∧ x ≤ ab.2) ↔ (lo ≤ x ∧ x ≤ hi) := by
  rw [intervals1D,
    intervalsAux_cover size hs _ lo hi (by exact_mod_cast intervals1D_fuel size lo hi hs) x]
  constructor
  · rintro ⟨h1, h2, -⟩; exact ⟨h1, h2⟩
  · rintro ⟨h1, h2⟩; exact ⟨h1, h2, hlh⟩

lemma intervalsAux_chain (size : ℚ) (hs : 0 < size) :
    ∀ (fuel : ℕ) (lo hi : ℚ),
      (intervalsAux size fuel lo hi).Pairwise (fun ab cd => ab.2 ≤ cd.1) := by
  intro fuel
  induction fuel with
  | zero => intro lo hi; simp [intervalsAux]
  | succ fuel ih =>
    intro lo hi
    rw [intervalsAux]
    by_cases hlh : lo < hi
    · rw [if_pos hlh]
      refine List.Pairwise.cons ?_ (ih (min (lo + size) hi) hi)
      intro cd hcd
      exact (intervalsAux_bounds size hs fuel (min (lo + size) hi) hi cd hcd).1
    · rw [if_neg hlh]
      exact List.Pairwise.nil

lemma pairwise_flatMap {α β : Type} {R : β → β → Prop} (f : α → List β) :
    ∀ (l : List α),
      (∀ a ∈ l, (f a).Pairwise R) →
      l.Pairwise (fun a b => ∀ x ∈ f a, ∀ y ∈ f b, R x y) →
      (l.flatMap f).Pairwise R := by
  intro l
  induction l with
  | nil => intro _ _; simp
  | cons a as ih =>
    intro h1 h2
    rw [List.flatMap_cons]
    rw [List.pairwise_append]
    refine ⟨h1 a (List.mem_cons_self _ _), ?_, ?_⟩
    · exact ih (fun b hb => h1 b (List.mem_cons_of_mem _ hb)) (List.Pairwise.sublist (List.sublist_cons_self a as) h2)
    · intro x hx y hy
      obtain ⟨b, hb, hyb⟩ := List.mem_flatMap.mp hy
      exact (List.rel_of_pairwise_cons h2 hb) x hx y hyb

/-- C9: for a nondegenerate bounding box and positive tile size,
`generateTiles` returns tiles each at most `maxTileSize` wide and tall,
whose closed union is exactly the bounding box, and whose interiors are
pairwise disjoint. -/
theorem C9_generateTiles (bbox : RTile) (size : ℚ)
    (hsn : bbox.t0 < bbox.t2) (hwe : bbox.t1 < bbox.t3) (hs : 0 < size) :
    (∀ t ∈ generateTiles bbox size, t.t2 - t.t0 ≤ size ∧ t.t3 - t.t1 ≤ size) ∧
    (∀ x y, (∃ t ∈ generateTiles bbox size, insideClosed t x y) ↔
      (bbox.t0 ≤ x ∧ x ≤ bbox.t2 ∧ bbox.t1 ≤ y ∧ y ≤ bbox.t3)) ∧
    (generateTiles bbox size).Pairwise
      (fun t u => ∀ x y, insideOpen t x y → ¬ insideOpen u x y) := by
  have hmem : ∀ t, t ∈ generateTiles bbox size ↔
      ∃ la ∈ intervals1D size bbox.t0 bbox.t2,
        ∃ lo ∈ intervals1D size bbox.t1 bbox.t3,
          t = ⟨la.1, lo.1, la.2, lo.2⟩ := by
    intro t
    rw [generateTiles, List.mem_flatMap]
    constructor
    · rintro ⟨la, hla, ht⟩
      obtain ⟨lo, hlo, rfl⟩ := List.mem_map.mp ht
      exact ⟨la, hla, lo, hlo, rfl⟩
    · rintro ⟨la, hla, lo, hlo, rfl⟩
      exact ⟨la, hla, List.mem_map.mpr ⟨lo, hlo, rfl⟩⟩
  refine ⟨?_, ?_, ?_⟩
  · intro t ht
    obtain ⟨la, hla, lo, hlo, rfl⟩ := (hmem t).mp ht
    have hb1 := intervalsAux_bounds size hs _ bbox.t0 bbox.t2 la hla
    have hb2 := intervalsAux_bounds size hs _ bbox.t1 bbox.t3 lo hlo
    exact ⟨hb1.2.2.2, hb2.2.2.2⟩
  · intro x y
    constructor
    · rintro ⟨t, ht, hin⟩
      obtain ⟨la, hla, lo, hlo, rfl⟩ := (hmem t).mp ht
      obtain ⟨i1, i2, i3, i4⟩ := hin
      have hx := (intervals1D_cover size bbox.t0 bbox.t2 hs hsn x).mp ⟨la, hla, i1, i2⟩
      have hy := (intervals1D_cover size bbox.t1 bbox.t3 hs hwe y).mp ⟨lo, hlo, i3, i4⟩
      exact ⟨hx.1, hx.2, hy.1, hy.2⟩
    · rintro ⟨h1, h2, h3, h4⟩
      obtain ⟨la, hla, hla1, hla2⟩ :=
        (intervals1D_cover size bbox.t0 bbox.t2 hs hsn x).mpr ⟨h1, h2⟩
      obtain ⟨lo, hlo, hlo1, hlo2⟩ :=
        (intervals1D_cover size bbox.t1 bbox.t3 hs hwe y).mpr ⟨h3, h4⟩
      exact ⟨⟨la.1, lo.1, la.2, lo.2⟩, (hmem _).mpr ⟨la, hla, lo, hlo, rfl⟩,
        hla1, hla2, hlo1, hlo2⟩
  · rw [generateTiles]
    refine pairwise_flatMap _ _ ?_ ?_
    · intro la hla
      rw [List.pairwise_map]
      refine List.Pairwise.imp ?_
        (intervalsAux_chain size hs _ bbox.t1 bbox.t3)
      intro lo lo' hle x y hin hin'
      obtain ⟨-, -, -, i4⟩ := hin
      obtain ⟨-, -, i3', -⟩ := hin'
      simp only at i4 i3'
      linarith
    · refine List.Pairwise.imp ?_ (intervalsAux_chain size hs _ bbox.t0 bbox.t2)
      intro la la' hle t ht u hu x y hin hin'
      obtain ⟨lo, hlo, rfl⟩ := List.mem_map.mp ht
      obtain ⟨lo', hlo', rfl⟩ := List.mem_map.mp hu
      obtain ⟨-, i2, -, -⟩ := hin
      obtain ⟨i1', -, -, -⟩ := hin'
      simp only at i2 i1'
      linarith

/-- C9 witness: the unit box with tile size 1 is a single tile. -/
theorem C9_witness :
    (0 : ℚ) < 1 ∧
    (∀ t ∈ generateTiles ⟨0, 0, 1, 1⟩ 1, t.t2 - t.t0 ≤ 1 ∧ t.t3 - t.t1 ≤ 1) ∧
    (∀ x y, (∃ t ∈ generateTiles ⟨0, 0, 1, 1⟩ 1, insideClosed t x y) ↔
      ((0 : ℚ) ≤ x ∧ x ≤ 1 ∧ (0 : ℚ) ≤ y ∧ y ≤ 1)) ∧
    (generateTiles ⟨0, 0, 1, 1⟩ 1).Pairwise
      (fun t u => ∀ x y, insideOpen t x y → ¬ insideOpen u x y) :=
  ⟨by norm_num,
   (C9_generateTiles ⟨0, 0, 1, 1⟩ 1 (by norm_num) (by norm_num) (by norm_num)).1,
   (C9_generateTiles ⟨0, 0, 1, 1⟩ 1 (by norm_num) (by norm_num) (by norm_num)).2.1,
   (C9_generateTiles ⟨0, 0, 1, 1⟩ 1 (by norm_num) (by norm_num) (by norm_num)).2.2⟩

/-! ## Claim C5: `fetchBuildingsData` (src/scripts/download_data.js lines 428-466)

The network side is abstracted into the sequence of requests the
function issues: one whole-box query (when attempted) followed by the
tiled phase's per-tile queries. -/

inductive Req where
  | fullBox : RTile → Req
  | tile : RTile → Req
deriving DecidableEq

def isFullBox : Req → Bool
  | .fullBox _ => true
  | .tile _ => false

/-- Requests issued by `fetchBuildingsDataTiled`: for each tile of
`generateTiles(bbox, overpassTileSize.buildings = 1.0)`, the requests of
its recursive fetch (`depth = 0`, `maxDepth = 3`), all tile-shaped. -/
def buildingsTiledRequests {F : Type} (src : ℕ → RTile → Except Unit (List F))
    (bbox : RTile) : List Req :=
  (generateTiles bbox 1).flatMap fun t =>
    (fetchBuildingTileRecursive src t 0 3).reqTiles.map Req.tile

/-- Requests issued by `fetchBuildingsData`: `skipFullDownload` when
`bboxArea > 1.5`; with `tryFullBboxFirst` and no skip, one whole-box
query (`runQueryWithRetry(query, 1)`, outcome `fullResult`), falling back
to the tiled phase on error or on zero elements. -/
def fetchBuildingsDataRequests {F : Type} (tryFullBboxFirst : Bool)
    (src : ℕ → RTile → Except Unit (List F)) (fullResult : Except Unit (List F))
    (bbox : RTile) : List Req :=
  let skipFullDownload := 3/2 < tileArea bbox
  if tryFullBboxFirst = true ∧ ¬ skipFullDownload then
    Req.fullBox bbox ::
      (match fullResult with
       | .ok data => if data.length = 0 then buildingsTiledRequests src bbox else []
       | .error _ => buildingsTiledRequests src bbox)
  else buildingsTiledRequests src bbox

lemma buildingsTiledRequests_no_fullBox {F : Type}
    (src : ℕ → RTile → Except Unit (List F)) (bbox : RTile) :
    ∀ r ∈ buildingsTiledRequests src bbox, ¬ isFullBox r = true := by
  intro r hr
  obtain ⟨t, ht, hrt⟩ := List.mem_flatMap.mp hr
  obtain ⟨u, hu, rfl⟩ := List.mem_map.mp hrt
  simp [isFullBox]

/-- C5: when the box area exceeds the cutoff 1.5, no whole-box request is
issued (for any `tryFullBboxFirst`); when the area is at most 1.5 and
`tryFullBboxFirst` is enabled, exactly one whole-box request is issued
and it precedes all tile requests. -/
theorem C5_full_bbox_cutoff {F : Type} (tryFull : Bool)
    (src : ℕ → RTile → Except Unit (List F)) (fullResult : Except Unit (List F))
    (bbox : RTile) :
    (3/2 < tileArea bbox →
      (fetchBuildingsDataRequests tryFull src fullResult bbox).countP isFullBox = 0) ∧
    (tileArea bbox ≤ 3/2 → tryFull = true →
      (fetchBuildingsDataRequests tryFull src fullResult bbox).countP isFullBox = 1 ∧
      (fetchBuildingsDataRequests tryFull src fullResult bbox).head? =
        some (Req.fullBox bbox)) := by
  constructor
  · intro harea
    rw [fetchBuildingsDataRequests.eq_def]
    rw [if_neg (by intro h; exact h.2 harea)]
    exact List.countP_eq_zero.mpr (buildingsTiledRequests_no_fullBox src bbox)
  · intro harea htry
    have hcond : tryFull = true ∧ ¬ (3/2 < tileArea bbox) :=
      ⟨htry, not_lt.mpr harea⟩
    rw [fetchBuildingsDataRequests.eq_def, if_pos hcond]
    refine ⟨?_, rfl⟩
    rw [List.countP_cons_of_pos isFullBox _ (by rfl)]
    have hzero : List.countP isFullBox
        (match fullResult with
         | Except.ok data =>
             if data.length = 0 then buildingsTiledRequests src bbox else []
         | Except.error _ => buildingsTiledRequests src bbox) = 0 := by
      refine List.countP_eq_zero.mpr ?_
      intro r hr
      cases fullResult with
      | ok data =>
        simp only [] at hr
        by_cases hlen : data.length = 0
        · rw [if_pos hlen] at hr
          exact buildingsTiledRequests_no_fullBox src bbox r hr
        · rw [if_neg hlen] at hr
          simp at hr
      | error e =>
        exact buildingsTiledRequests_no_fullBox src bbox r hr
    rw [hzero]

/-- C5 witness: the spec's 2×2-degree box (area 4 > 1.5) issues no
whole-box request; a 1×1 box (area 1 ≤ 1.5) with the flag on issues
exactly one, first. -/
theorem C5_witness :
    (3/2 < tileArea ⟨0, 0, 2, 2⟩ ∧
      (fetchBuildingsDataRequests true zeroSrc (Except.ok [0]) ⟨0, 0, 2, 2⟩).countP
        isFullBox = 0) ∧
    (tileArea ⟨0, 0, 1, 1⟩ ≤ 3/2 ∧
      (fetchBuildingsDataRequests true zeroSrc (Except.ok [0]) ⟨0, 0, 1, 1⟩).countP
        isFullBox = 1 ∧
      (fetchBuildingsDataRequests true zeroSrc (Except.ok [0]) ⟨0, 0, 1, 1⟩).head? =
        some (Req.fullBox ⟨0, 0, 1, 1⟩)) :=
  ⟨⟨by norm_num [tileArea],
    (C5_full_bbox_cutoff true zeroSrc (Except.ok [0]) ⟨0, 0, 2, 2⟩).1
      (by norm_num [tileArea])⟩,
   ⟨by norm_num [tileArea],
    ((C5_full_bbox_cutoff true zeroSrc (Except.ok [0]) ⟨0, 0, 1, 1⟩).2
      (by norm_num [tileArea]) rfl).1,
    ((C5_full_bbox_cutoff true zeroSrc (Except.ok [0]) ⟨0, 0, 1, 1⟩).2
      (by norm_num [tileArea]) rfl).2⟩⟩

/-! ## Claim C6: grid-based neighborhood assignment
(src/unnamed/part_003, `processPlaceConnections` lines 179-246 and 336-349)

The grid precompute evaluates, for each cell `(col, row)`, the sample
point `(minLon + col * 0.002, minLat + row * 0.002)`, collects
neighborhoods whose center lies in the `±0.05` search box around it
(the R-tree `search` on point entries), and caches the id of the
candidate with strictly smallest squared planar distance (first wins on
ties, starting from `minDistSq = Infinity`).  A building is then mapped
to its cell by `Math.floor` and looks the cached id up; cells outside
`[0, gridCols) × [0, gridRows)` were never populated. -/

structure Nbhd where
  id : ℕ
  lon : ℚ
  lat : ℚ
deriving DecidableEq

def gridResolution : ℚ := 2/1000

def searchRadius : ℚ := 5/100

/-- `dLon * dLon + dLat * dLat`. -/
def distSq (lon lat : ℚ) (n : Nbhd) : ℚ :=
  (lon - n.lon) * (lon - n.lon) + (lat - n.lat) * (lat - n.lat)

/-- The R-tree `search` over point entries: every neighborhood whose
center intersects the closed query box. -/
def searchCands (nbhds : List Nbhd) (lon lat : ℚ) : List Nbhd :=
  nbhds.filter fun n =>
    decide (lon - searchRadius ≤ n.lon ∧ n.lon ≤ lon + searchRadius ∧
      lat - searchRadius ≤ n.lat ∧ n.lat ≤ lat + searchRadius)

/-- The `for (const neighborhood of candidates)` loop: strict-minimum
fold starting from `nearestId = null`, `minDistSq = Infinity`. -/
def nearestLoop (lon lat : ℚ) : List Nbhd → Option (ℕ × ℚ) → Option (ℕ × ℚ)
  | [], acc => acc
  | n :: rest, acc =>
    match acc with
    | none => nearestLoop lon lat rest (some (n.id, distSq lon lat n))
    | some (j, m) =>
      if distSq lon lat n < m then
        nearestLoop lon lat rest (some (n.id, distSq lon lat n))
      else nearestLoop lon lat rest (some (j, m))

def gridCols (minLon maxLon : ℚ) : ℤ := ⌈(maxLon - minLon) / gridResolution⌉

def gridRows (minLat maxLat : ℚ) : ℤ := ⌈(maxLat - minLat) / gridResolution⌉

/-- The cached `neighborhoodGrid` value of cell `(col, row)`, whose
sample point is `(minLon + col * gridResolution, minLat + row * gridResolution)`. -/
def gridCellAssign (nbhds : List Nbhd) (minLon minLat : ℚ) (col row : ℕ) :
    Option ℕ :=
  (nearestLoop (minLon + (col : ℚ) * gridResolution)
    (minLat + (row : ℚ) * gridResolution)
    (searchCands nbhds (minLon + (col : ℚ) * gridResolution)
      (minLat + (row : ℚ) * gridResolution)) none).map Prod.fst

/-- The per-building grid lookup: cell by `Math.floor`, `Map.get` missing
(`none`) outside the populated `[0, gridCols) × [0, gridRows)` range. -/
def assignBuildingToNbhd (nbhds : List Nbhd) (minLon minLat maxLon maxLat : ℚ)
    (centerLon centerLat : ℚ) : Option ℕ :=
  let col : ℤ := ⌊(centerLon - minLon) / gridResolution⌋
  let row : ℤ := ⌊(centerLat - minLat) / gridResolution⌋
  if 0 ≤ col ∧ col < gridCols minLon maxLon ∧
      0 ≤ row ∧ row < gridRows minLat maxLat then
    gridCellAssign nbhds minLon minLat col.toNat row.toNat
  else none

lemma distSq_nonneg (lon lat : ℚ) (n : Nbhd) : 0 ≤ distSq lon lat n := by
  rw [distSq]
  exact add_nonneg (mul_self_nonneg _) (mul_self_nonneg _)

lemma distSq_eq_zero {lon lat : ℚ} {n : Nbhd} (h : distSq lon lat n = 0) :
    n.lon = lon ∧ n.lat = lat := by
  rw [distSq] at h
  have h1 : (lon - n.lon) * (lon - n.lon) = 0 := by
    nlinarith [mul_self_nonneg (lon - n.lon), mul_self_nonneg (lat - n.lat)]
  have h2 : (lat - n.lat) * (lat - n.lat) = 0 := by
    nlinarith [mul_self_nonneg (lon - n.lon), mul_self_nonneg (lat - n.lat)]
  have := mul_self_eq_zero.mp h1
  have := mul_self_eq_zero.mp h2
  constructor <;> linarith

lemma nearestLoop_some (lon lat : ℚ) :
    ∀ (cands : List Nbhd) (p : ℕ × ℚ),
      ∃ q, nearestLoop lon lat cands (some p) = some q := by
  intro cands
  induction cands with
  | nil => intro p; exact ⟨p, rfl⟩
  | cons n rest ih =>
    intro p
    obtain ⟨j, m⟩ := p
    rw [nearestLoop]
    by_cases h : distSq lon lat n < m
    · rw [if_pos h]; exact ih _
    · rw [if_neg h]; exact ih _

lemma nearestLoop_spec (lon lat : ℚ) :
    ∀ (cands : List Nbhd) (acc : Option (ℕ × ℚ)) (i : ℕ) (d : ℚ),
      nearestLoop lon lat cands acc = some (i, d) →
      (acc = some (i, d) ∨ ∃ m ∈ cands, m.id = i ∧ distSq lon lat m = d) ∧
      (∀ m ∈ cands, d ≤ distSq lon lat m) ∧
      (∀ j e, acc = some (j, e) → d ≤ e) := by
  intro cands
  induction cands with
  | nil =>
    intro acc i d h
    rw [nearestLoop] at h
    refine ⟨Or.inl h, ?_, ?_⟩
    · intro m hm; exact absurd hm (List.not_mem_nil m)
    · intro j e he
      rw [h] at he
      obtain ⟨-, rfl⟩ := Prod.mk.injEq .. ▸ Option.some.inj he
      exact le_refl d
  | cons n rest ih =>
    intro acc i d h
    cases acc with
    | none =>
      rw [nearestLoop] at h
      obtain ⟨hfrom, hmin, hacc⟩ := ih _ i d h
      refine ⟨?_, ?_, ?_⟩
      · rcases hfrom with heq | ⟨m, hm, hid, hd⟩
        · obtain ⟨h1, h2⟩ := Prod.mk.injEq .. ▸ Option.some.inj heq
          exact Or.inr ⟨n, List.mem_cons_self _ _, h1, h2⟩
        · exact Or.inr ⟨m, List.mem_cons_of_mem _ hm, hid, hd⟩
      · intro m hm
        rcases List.mem_cons.mp hm with rfl | hm'
        · exact hacc m.id (distSq lon lat m) rfl
        · exact hmin m hm'
      · intro j e he
        exact absurd he (by simp)
    | some p =>
      obtain ⟨j, m⟩ := p
      rw [nearestLoop] at h
      by_cases hlt : distSq lon lat n < m
      · rw [if_pos hlt] at h
        obtain ⟨hfrom, hmin, hacc⟩ := ih _ i d h
        have hdm : d ≤ distSq lon lat n := hacc n.id (distSq lon lat n) rfl
        refine ⟨?_, ?_, ?_⟩
        · rcases hfrom with heq | ⟨m', hm', hid, hd⟩
          · obtain ⟨h1, h2⟩ := Prod.mk.injEq .. ▸ Option.some.inj heq
            exact Or.inr ⟨n, List.mem_cons_self _ _, h1, h2⟩
          · exact Or.inr ⟨m', List.mem_cons_of_mem _ hm', hid, hd⟩
        · intro m' hm'
          rcases List.mem_cons.mp hm' with rfl | hm''
          · exact hdm
          · exact hmin m' hm''
        · intro j' e' he'
          obtain ⟨-, h2⟩ := Prod.mk.injEq .. ▸ Option.some.inj he'
          subst h2
          linarith
      · rw [if_neg hlt] at h
        obtain ⟨hfrom, hmin, hacc⟩ := ih _ i d h
        have hdm : d ≤ m := hacc j m rfl
        refine ⟨?_, ?_, ?_⟩
        · rcases hfrom with heq | ⟨m', hm', hid, hd⟩
          · exact Or.inl heq
          · exact Or.inr ⟨m', List.mem_cons_of_mem _ hm', hid, hd⟩
        · intro m' hm'
          rcases List.mem_cons.mp hm' with rfl | hm''
          · have : m ≤ distSq lon lat m' := not_lt.mp hlt
            linarith
          · exact hmin m' hm''
        · intro j' e' he'
          obtain ⟨-, h2⟩ := Prod.mk.injEq .. ▸ Option.some.inj he'
          subst h2
          exact hdm

set_option maxRecDepth 1000

/-- C6, counterexample: two neighborhoods at `(19/10000, 0)` (id 1) and
`(1/10000, 0)` (id 2) with bbox `[0, 0, 0.004, 0.002]`.  A building whose
bbox center coincides exactly with neighborhood 1's center falls in grid
cell `(0, 0)`, whose cached winner is the neighborhood nearest the cell's
sample point `(0, 0)` — neighborhood 2.  The claimed assignment to the
coinciding neighborhood fails. -/
theorem C6_counterexample :
    (⟨1, 19/10000, 0⟩ : Nbhd) ∈
      ([⟨1, 19/10000, 0⟩, ⟨2, 1/10000, 0⟩] : List Nbhd) ∧
    assignBuildingToNbhd [⟨1, 19/10000, 0⟩, ⟨2, 1/10000, 0⟩] 0 0 (4/1000)
      (2/1000) (19/10000 : ℚ) 0 = some 2 ∧
    assignBuildingToNbhd [⟨1, 19/10000, 0⟩, ⟨2, 1/10000, 0⟩] 0 0 (4/1000)
      (2/1000) (19/10000 : ℚ) 0 ≠ some 1 :=
  ⟨List.mem_cons_self _ _,
   of_decide_eq_true (by with_unfolding_all rfl),
   of_decide_eq_true (by with_unfolding_all rfl)⟩

/-- C6 (amended): a building whose bbox center coincides exactly with
neighborhood `n`'s center is assigned to `n` provided `n`'s center also
lies exactly on its grid cell's sample point (i.e. on the 0.002° lattice
anchored at the bbox corner), the cell is inside the grid, and no other
neighborhood shares that exact center.  In general the cell's cached
winner is the neighborhood nearest the cell's sample point, which need
not be the one coinciding with the building center. -/
theorem C6_center_assignment_corrected (nbhds : List Nbhd) (n : Nbhd)
    (minLon minLat maxLon maxLat : ℚ) (col row : ℕ)
    (hmem : n ∈ nbhds)
    (hlon : n.lon = minLon + (col : ℚ) * gridResolution)
    (hlat : n.lat = minLat + (row : ℚ) * gridResolution)
    (hcol : (col : ℤ) < gridCols minLon maxLon)
    (hrow : (row : ℤ) < gridRows minLat maxLat)
    (huniq : ∀ m ∈ nbhds, m.lon = n.lon → m.lat = n.lat → m.id = n.id) :
    assignBuildingToNbhd nbhds minLon minLat maxLon maxLat n.lon n.lat =
      some n.id := by
  have hres : gridResolution ≠ 0 := by norm_num [gridResolution]
  have hfc : ⌊(n.lon - minLon) / gridResolution⌋ = (col : ℤ) := by
    rw [hlon]
    rw [show minLon + (col : ℚ) * gridResolution - minLon = (col : ℚ) * gridResolution
      from by ring]
    rw [mul_div_assoc, div_self hres, mul_one, Int.floor_natCast]
  have hfr : ⌊(n.lat - minLat) / gridResolution⌋ = (row : ℤ) := by
    rw [hlat]
    rw [show minLat + (row : ℚ) * gridResolution - minLat = (row : ℚ) * gridResolution
      from by ring]
    rw [mul_div_assoc, div_self hres, mul_one, Int.floor_natCast]
  rw [assignBuildingToNbhd.eq_def]
  simp only [hfc, hfr]
  rw [if_pos ⟨Int.natCast_nonneg col, hcol, Int.natCast_nonneg row, hrow⟩]
  rw [Int.toNat_natCast, Int.toNat_natCast]
  rw [gridCellAssign, ← hlon, ← hlat]
  have hr : (0 : ℚ) < searchRadius := by norm_num [searchRadius]
  have hcand : n ∈ searchCands nbhds n.lon n.lat := by
    refine List.mem_filter.mpr ⟨hmem, ?_⟩
    rw [decide_eq_true_eq]
    refine ⟨by linarith, by linarith, by linarith, by linarith⟩
  have hzero : distSq n.lon n.lat n = 0 := by
    rw [distSq]
    ring
  obtain ⟨c, rest, hc⟩ : ∃ c rest, searchCands nbhds n.lon n.lat = c :: rest := by
    cases hsc : searchCands nbhds n.lon n.lat with
    | nil => rw [hsc] at hcand; exact absurd hcand (List.not_mem_nil n)
    | cons c rest => exact ⟨c, rest, rfl⟩
  obtain ⟨⟨i, d⟩, heq⟩ : ∃ q, nearestLoop n.lon n.lat
      (searchCands nbhds n.lon n.lat) none = some q := by
    rw [hc, nearestLoop]
    exact nearestLoop_some n.lon n.lat rest (c.id, distSq n.lon n.lat c)
  obtain ⟨hfrom, hmin, -⟩ := nearestLoop_spec n.lon n.lat _ none i d heq
  rcases hfrom with habs | ⟨m, hm, hid, hd⟩
  · exact absurd habs (by simp)
  · have hd0 : d ≤ 0 := hzero ▸ hmin n hcand
    have hd0' : 0 ≤ d := hd ▸ distSq_nonneg n.lon n.lat m
    have hdz : distSq n.lon n.lat m = 0 := by rw [hd]; linarith
    obtain ⟨hml, hmt⟩ := distSq_eq_zero hdz
    have hmn : m ∈ nbhds := (List.mem_filter.mp hm).1
    have : m.id = n.id := huniq m hmn hml hmt
    rw [heq, Option.map_some']
    rw [← hid, this]

/-- C6 witness: a single neighborhood whose center is exactly on the grid
lattice. -/
theorem C6_witness :
    (⟨7, 4/1000, 0⟩ : Nbhd) ∈ ([⟨7, 4/1000, 0⟩] : List Nbhd) ∧
    assignBuildingToNbhd [⟨7, 4/1000, 0⟩] 0 0 (1/100) (2/1000) (4/1000 : ℚ) 0 =
      some 7 :=
  ⟨List.mem_cons_self _ _,
   C6_center_assignment_corrected [⟨7, 4/1000, 0⟩] ⟨7, 4/1000, 0⟩ 0 0 (1/100)
     (2/1000) 2 0
     (List.mem_cons_self _ _)
     (of_decide_eq_true (by with_unfolding_all rfl))
     (of_decide_eq_true (by with_unfolding_all rfl))
     (of_decide_eq_true (by with_unfolding_all rfl))
     (of_decide_eq_true (by with_unfolding_all rfl))
     (of_decide_eq_true (by with_unfolding_all rfl))⟩

/-! ## Claim C10: the building worker
(src/unnamed/part_003, default export lines 1074-1110 and the legacy
centroid variant lines 1206-1243) -/

structure Coord where
  lon : ℚ
  lat : ℚ
deriving DecidableEq

structure RawBuilding (α : Type) where
  geometry : List Coord
  tags : α

structure BBox4 where
  minLon : ℚ
  minLat : ℚ
  maxLon : ℚ
  maxLat : ℚ
deriving DecidableEq

structure ProcessedBuilding (α : Type) where
  bbox : BBox4
  centerLon : ℚ
  centerLat : ℚ
  tags : α
  id : ℕ
  xCellCoord : ℤ
  yCellCoord : ℤ

/-- The per-building bbox scan with the source's sentinel initial values
`minBuildingLon = minBuildingLat = 9999`,
`maxBuildingLon = maxBuildingLat = -999`. -/
def geomBBox (geometry : List Coord) : BBox4 :=
  geometry.foldl
    (fun acc c =>
      ⟨min acc.minLon c.lon, min acc.minLat c.lat,
       max acc.maxLon c.lon, max acc.maxLat c.lat⟩)
    ⟨9999, 9999, -999, -999⟩

/-- One building of the main (bbox-center) worker variant. -/
def processBuilding (α : Type) (minLon minLat cellWidth cellHeight : ℚ)
    (cols rows : ℤ) (i : ℕ) (b : RawBuilding α) : ProcessedBuilding α :=
  let bb := geomBBox b.geometry
  let centerLon := (bb.minLon + bb.maxLon) / 2
  let centerLat := (bb.minLat + bb.maxLat) / 2
  { bbox := bb
    centerLon := centerLon
    centerLat := centerLat
    tags := b.tags
    id := i
    xCellCoord := min (cols - 1) (max 0 ⌊(centerLon - minLon) / cellWidth⌋)
    yCellCoord := min (rows - 1) (max 0 ⌊(centerLat - minLat) / cellHeight⌋) }

def buildingWorkerAux (α : Type) (minLon minLat cellWidth cellHeight : ℚ)
    (cols rows : ℤ) : ℕ → List (RawBuilding α) → List (ProcessedBuilding α)
  | _, [] => []
  | i, b :: rest =>
    processBuilding α minLon minLat cellWidth cellHeight cols rows i b ::
      buildingWorkerAux α minLon minLat cellWidth cellHeight cols rows (i + 1) rest

/-- The building worker default export (`forEach` with
`i = startIdx + localIdx`). -/
def buildingWorker (α : Type) (buildings : List (RawBuilding α)) (startIdx : ℕ)
    (minLon maxLon minLat maxLat cellWidth cellHeight : ℚ) (cols rows : ℤ) :
    List (ProcessedBuilding α) :=
  buildingWorkerAux α minLon minLat cellWidth cellHeight cols rows startIdx buildings

/-- Closing the ring when first and last point differ. -/
def closeRing (pts : List Coord) : List Coord :=
  match pts with
  | [] => []
  | p :: _ =>
    match pts.getLast? with
    | some q => if p.lon = q.lon ∧ p.lat = q.lat then pts else pts ++ [p]
    | none => pts

/-- `calculateCentroid`: average of the first `n = length - 1` points of
the closed ring. -/
def calculateCentroid (coords : List Coord) : Coord :=
  let n := coords.length - 1
  ⟨((coords.take n).map Coord.lon).sum / (n : ℚ),
   ((coords.take n).map Coord.lat).sum / (n : ℚ)⟩

/-- One building of the legacy (centroid) worker variant; degenerate
geometries (< 3 points) are skipped. -/
def processBuildingLegacy (α : Type) (minLon minLat cellWidth cellHeight : ℚ)
    (cols rows : ℤ) (i : ℕ) (b : RawBuilding α) : Option (ProcessedBuilding α) :=
  if b.geometry.length < 3 then none
  else
    let center := calculateCentroid (closeRing b.geometry)
    some
      { bbox := geomBBox b.geometry
        centerLon := center.lon
        centerLat := center.lat
        tags := b.tags
        id := i
        xCellCoord := min (cols - 1) (max 0 ⌊(center.lon - minLon) / cellWidth⌋)
        yCellCoord := min (rows - 1) (max 0 ⌊(center.lat - minLat) / cellHeight⌋) }

def buildingWorkerLegacyAux (α : Type) (minLon minLat cellWidth cellHeight : ℚ)
    (cols rows : ℤ) : ℕ → List (RawBuilding α) → List (ProcessedBuilding α)
  | _, [] => []
  | i, b :: rest =>
    match processBuildingLegacy α minLon minLat cellWidth cellHeight cols rows i b with
    | some p => p ::
        buildingWorkerLegacyAux α minLon minLat cellWidth cellHeight cols rows (i + 1) rest
    | none =>
        buildingWorkerLegacyAux α minLon minLat cellWidth cellHeight cols rows (i + 1) rest

def buildingWorkerLegacy (α : Type) (buildings : List (RawBuilding α))
    (startIdx : ℕ) (minLon maxLon minLat maxLat cellWidth cellHeight : ℚ)
    (cols rows : ℤ) : List (ProcessedBuilding α) :=
  buildingWorkerLegacyAux α minLon minLat cellWidth cellHeight cols rows
    startIdx buildings

/-- The clamped cell coordinates of the main variant's output. -/
lemma buildingWorkerAux_clamped (α : Type) (minLon minLat cellWidth cellHeight : ℚ)
    (cols rows : ℤ) (hc : 1 ≤ cols) (hr : 1 ≤ rows) :
    ∀ (l : List (RawBuilding α)) (i : ℕ),
      ∀ b ∈ buildingWorkerAux α minLon minLat cellWidth cellHeight cols rows i l,
        0 ≤ b.xCellCoord ∧ b.xCellCoord ≤ cols - 1 ∧
        0 ≤ b.yCellCoord ∧ b.yCellCoord ≤ rows - 1 := by
  intro l
  induction l with
  | nil => intro i b hb; simp [buildingWorkerAux] at hb
  | cons rb rest ih =>
    intro i b hb
    rw [buildingWorkerAux] at hb
    rcases List.mem_cons.mp hb with rfl | hb'
    · refine ⟨?_, ?_, ?_, ?_⟩ <;>
        simp only [processBuilding] <;> omega
    · exact ih (i + 1) b hb'

/-- The clamped cell coordinates of the legacy variant's output. -/
lemma buildingWorkerLegacyAux_clamped (α : Type)
    (minLon minLat cellWidth cellHeight : ℚ)
    (cols rows : ℤ) (hc : 1 ≤ cols) (hr : 1 ≤ rows) :
    ∀ (l : List (RawBuilding α)) (i : ℕ),
      ∀ b ∈ buildingWorkerLegacyAux α minLon minLat cellWidth cellHeight cols rows i l,
        0 ≤ b.xCellCoord ∧ b.xCellCoord ≤ cols - 1 ∧
        0 ≤ b.yCellCoord ∧ b.yCellCoord ≤ rows - 1 := by
  intro l
  induction l with
  | nil => intro i b hb; simp [buildingWorkerLegacyAux] at hb
  | cons rb rest ih =>
    intro i b hb
    rw [buildingWorkerLegacyAux] at hb
    rw [processBuildingLegacy] at hb
    by_cases hlen : rb.geometry.length < 3
    · rw [if_pos hlen] at hb
      exact ih (i + 1) b hb
    · rw [if_neg hlen] at hb
      simp only [] at hb
      rcases List.mem_cons.mp hb with rfl | hb'
      · refine ⟨?_, ?_, ?_, ?_⟩ <;> simp only [] <;> omega
      · exact ih (i + 1) b hb'

/-- C10: with at least one column and row and positive cell sizes, every
building the worker emits (in either variant) has grid coordinates
clamped into `[0, cols-1] × [0, rows-1]`, wherever its center lies. -/
theorem C10_cells_clamped (α : Type) (buildings : List (RawBuilding α))
    (startIdx : ℕ) (minLon maxLon minLat maxLat cellWidth cellHeight : ℚ)
    (cols rows : ℤ) (hc : 1 ≤ cols) (hr : 1 ≤ rows)
    (hw : 0 < cellWidth) (hh : 0 < cellHeight) :
    (∀ b ∈ buildingWorker α buildings startIdx minLon maxLon minLat maxLat
        cellWidth cellHeight cols rows,
      0 ≤ b.xCellCoord ∧ b.xCellCoord ≤ cols - 1 ∧
      0 ≤ b.yCellCoord ∧ b.yCellCoord ≤ rows - 1) ∧
    (∀ b ∈ buildingWorkerLegacy α buildings startIdx minLon maxLon minLat maxLat
        cellWidth cellHeight cols rows,
      0 ≤ b.xCellCoord ∧ b.xCellCoord ≤ cols - 1 ∧
      0 ≤ b.yCellCoord ∧ b.yCellCoord ≤ rows - 1) :=
  ⟨buildingWorkerAux_clamped α minLon minLat cellWidth cellHeight cols rows
     hc hr buildings startIdx,
   buildingWorkerLegacyAux_clamped α minLon minLat cellWidth cellHeight cols rows
     hc hr buildings startIdx⟩

/-- C10 witness: one triangle far outside a 1×1-cell grid still lands in
cell `(0, 0)`. -/
theorem C10_witness :
    (1 : ℤ) ≤ 1 ∧
    ∀ b ∈ buildingWorker Unit [⟨[⟨50, 50⟩, ⟨51, 50⟩, ⟨50, 51⟩], ()⟩] 0
        0 1 0 1 1 1 1 1,
      0 ≤ b.xCellCoord ∧ b.xCellCoord ≤ 1 - 1 ∧
      0 ≤ b.yCellCoord ∧ b.yCellCoord ≤ 1 - 1 :=
  ⟨le_refl 1,
   (C10_cells_clamped Unit [⟨[⟨50, 50⟩, ⟨51, 50⟩, ⟨50, 51⟩], ()⟩] 0
     0 1 0 1 1 1 1 1 (le_refl 1) (le_refl 1) one_pos one_pos).1⟩

end SubwayPatcher
